import Mathlib

/-!
Verification of `tools/compare_tessellation_logs.py`.

The Python source operates on IEEE floating-point numbers and Python
strings/bytes.  The shallow embedding maps floats to `ℝ` (numeric literals
parsed from text are produced exactly, via `ℚ`, and then coerced), Python
strings to `List Char`, and byte buffers to `List ℕ`.
-/

namespace CompareTessellation

/-- A 2-D point, mirroring `Point = Tuple[float, float]`. -/
abbrev Point : Type := ℝ × ℝ

/-- A triangle, mirroring `Triangle = Tuple[Point, Point, Point]`. -/
abbrev Triangle : Type := Point × Point × Point

/-- Mirrors `_distance(p, q) = math.hypot(p[0]-q[0], p[1]-q[1])`,
i.e. the Euclidean norm of the coordinate difference. -/
noncomputable def _distance (p q : Point) : ℝ :=
  Real.sqrt ((p.1 - q.1) ^ 2 + (p.2 - q.2) ^ 2)

/-- The clamp `max(-1.0, min(1.0, cos_angle))` applied to the cosine
argument in `_min_internal_angle`. -/
noncomputable def clampCos (x : ℝ) : ℝ := max (-1) (min 1 x)

/-- One iteration of the loop body of `_min_internal_angle`: the angle (in
radians) opposite side `a`, with adjacent sides `b` and `c`; zero when either
adjacent side is exactly zero, otherwise the arccosine of the clamped
law-of-cosines quotient. -/
noncomputable def angleTerm (a b c : ℝ) : ℝ :=
  if b = 0 ∨ c = 0 then 0
  else Real.arccos (clampCos ((b * b + c * c - a * a) / (2 * b * c)))

/-- Mirrors `_min_internal_angle(ab, bc, ca)`: the three angles produced by
the loop (indices 0, 1, 2) are each converted to degrees, and their minimum
is returned (Python's `min` over an iterable folds from the left). -/
noncomputable def _min_internal_angle (ab bc ca : ℝ) : ℝ :=
  min (min (angleTerm ab bc ca * 180 / Real.pi)
           (angleTerm bc ca ab * 180 / Real.pi))
      (angleTerm ca ab bc * 180 / Real.pi)

/-- Mirrors the `TriangleMetrics` dataclass. -/
structure TriangleMetrics where
  area : ℝ
  min_angle_deg : ℝ
  edge_lengths : ℝ × ℝ × ℝ

/-- Mirrors `triangle_metrics(tri)`. -/
noncomputable def triangle_metrics (tri : Triangle) : TriangleMetrics :=
  let a := tri.1
  let b := tri.2.1
  let c := tri.2.2
  let ab := _distance a b
  let bc := _distance b c
  let ca := _distance c a
  let area := 0.5 * |(b.1 - a.1) * (c.2 - a.2) - (c.1 - a.1) * (b.2 - a.2)|
  { area := area
    min_angle_deg := _min_internal_angle ab bc ca
    edge_lengths := (ab, bc, ca) }

/-- Mirrors the `PolylineDump` dataclass. -/
structure PolylineDump where
  index : ℤ
  point_count : ℤ
  width : ℝ
  layer : List Char
  triangles : List Triangle

/-- Mirrors the `TriangleDiff` dataclass. -/
structure TriangleDiff where
  triangle_index : ℕ
  max_vertex_delta : ℝ
  max_coord_delta : ℝ
  area_a : ℝ
  area_b : ℝ
  min_angle_a : ℝ
  min_angle_b : ℝ
  vertices_a : Triangle
  vertices_b : Triangle

/-- Mirrors `_triangle_delta(a, b)`: both accumulators start at `0.0` and are
folded over the three positional vertex pairs, exactly as the Python loop
does (`max_coord_delta = max(max_coord_delta, dx, dy)` and
`max_vertex_delta = max(max_vertex_delta, math.hypot(dx, dy))`). -/
noncomputable def _triangle_delta (a b : Triangle) : ℝ × ℝ :=
  let dx0 := |a.1.1 - b.1.1|
  let dy0 := |a.1.2 - b.1.2|
  let dx1 := |a.2.1.1 - b.2.1.1|
  let dy1 := |a.2.1.2 - b.2.1.2|
  let dx2 := |a.2.2.1 - b.2.2.1|
  let dy2 := |a.2.2.2 - b.2.2.2|
  let mv := max (max (max 0 (Real.sqrt (dx0 ^ 2 + dy0 ^ 2)))
                     (Real.sqrt (dx1 ^ 2 + dy1 ^ 2)))
                (Real.sqrt (dx2 ^ 2 + dy2 ^ 2))
  let mc := max (max (max (max (max (max 0 dx0) dy0) dx1) dy1) dx2) dy2
  (mv, mc)

/-- The number of indices iterated by the `for idx in range(...)` loop of
`compare_polylines`: `min(limit, len(reference.triangles),
len(candidate.triangles))` where `limit = max_triangles` when given and
`max(len(reference.triangles), len(candidate.triangles))` otherwise
(Python's `range` over a non-positive bound is empty, whence `Int.toNat`). -/
def comparisonRange (reference candidate : PolylineDump)
    (max_triangles : Option ℤ) : ℕ :=
  let limit : ℤ :=
    match max_triangles with
    | some m => m
    | none => max (reference.triangles.length : ℤ) (candidate.triangles.length : ℤ)
  (min limit (min (reference.triangles.length : ℤ) (candidate.triangles.length : ℤ))).toNat

/-- The body of the `compare_polylines` loop at index `idx`: `none` when the
pair is within tolerance (`continue`), otherwise the emitted `TriangleDiff`. -/
noncomputable def compareAt (reference candidate : PolylineDump)
    (tolerance : ℝ) (idx : ℕ) : Option TriangleDiff :=
  match reference.triangles[idx]?, candidate.triangles[idx]? with
  | some tri_a, some tri_b =>
    let d := _triangle_delta tri_a tri_b
    if d.1 ≤ tolerance then none
    else
      let metrics_a := triangle_metrics tri_a
      let metrics_b := triangle_metrics tri_b
      some { triangle_index := idx
             max_vertex_delta := d.1
             max_coord_delta := d.2
             area_a := metrics_a.area
             area_b := metrics_b.area
             min_angle_a := metrics_a.min_angle_deg
             min_angle_b := metrics_b.min_angle_deg
             vertices_a := tri_a
             vertices_b := tri_b }
  | _, _ => none

/-- Mirrors `compare_polylines(reference, candidate, tolerance,
max_triangles)`: the loop appends a diff exactly for the in-range indices the
body does not `continue` on. -/
noncomputable def compare_polylines (reference candidate : PolylineDump)
    (tolerance : ℝ) (max_triangles : Option ℤ) : List TriangleDiff :=
  (List.range (comparisonRange reference candidate max_triangles)).filterMap
    (compareAt reference candidate tolerance)

/-! ### Python string primitives

The dump parser manipulates Python strings; we model a Python `str` as a
`List Char` and give direct embeddings of the string methods the source
uses (`strip`, `split`, `startswith`, `endswith`, slicing, `int`, `float`).
-/

/-- The whitespace characters stripped by Python's `str.strip()` / skipped by
`str.split()` (the ASCII ones; the dump format contains no exotic Unicode
whitespace). -/
def isPySpace (c : Char) : Bool :=
  c = ' ' || c = '\t' || c = '\n' || c = '\x0d' || c = '\x0b' || c = '\x0c'

/-- Python `s.strip()`: remove leading and trailing whitespace. -/
def pyStrip (s : List Char) : List Char :=
  ((s.dropWhile isPySpace).reverse.dropWhile isPySpace).reverse

/-- Python `s.split(sep)` for a single-character separator `sep`: split on
every occurrence, keeping empty chunks (`",".split(',') == ["", ""]`). -/
def splitChar (sep : Char) : List Char → List (List Char)
  | [] => [[]]
  | c :: rest =>
    if c = sep then [] :: splitChar sep rest
    else
      match splitChar sep rest with
      | t :: ts => (c :: t) :: ts
      | [] => [[c]]

/-- Python `s.split(sep, 1)` for a single-character separator, in the shape
the source consumes it: `some (before, after)` at the first occurrence of
`sep`, and `none` when `sep` does not occur (in which case the source's
2-element unpack or `[1]` subscript raises, caught as a parse failure). -/
def splitOnceChar (sep : Char) : List Char → Option (List Char × List Char)
  | [] => none
  | c :: rest =>
    if c = sep then some ([], rest)
    else (splitOnceChar sep rest).map (fun p => (c :: p.1, p.2))

/-- Python `s.split()[0]` (split on whitespace runs, discarding empty
chunks, then take the first element): `some` of the first word, or `none`
when the string holds no word at all (in which case the source's `[0]`
subscript raises `IndexError`, caught as a parse failure). -/
def splitWsHead (s : List Char) : Option (List Char) :=
  match s.dropWhile isPySpace with
  | [] => none
  | c :: rest => some (c :: rest.takeWhile (fun d => !isPySpace d))

/-- Accumulated numeric value of a digit string, most significant first. -/
def digitsVal (ds : List Char) : ℕ :=
  ds.foldl (fun acc c => acc * 10 + (c.toNat - 48)) 0

/-- An optional leading `+`/`-` sign: `(isNegative, remainder)`. -/
def stripSign : List Char → Bool × List Char
  | '+' :: r => (false, r)
  | '-' :: r => (true, r)
  | r => (false, r)

/-- Python `int(s)`: surrounding whitespace, an optional sign, then one or
more decimal digits and nothing else (the dump format's counts are plain
decimal, so digit-group underscores and non-ASCII digits are not modelled). -/
def pyIntOfString (s : List Char) : Option ℤ :=
  let t := pyStrip s
  let p := stripSign t
  let ds := p.2.takeWhile Char.isDigit
  if ds = [] ∨ p.2.dropWhile Char.isDigit ≠ [] then none
  else some (if p.1 then -(digitsVal ds : ℤ) else (digitsVal ds : ℤ))

/-- The optional exponent suffix of a float literal: empty means exponent 0;
`e`/`E`, an optional sign and one or more digits is an explicit exponent; any
other remainder is a syntax error. -/
def expPart : List Char → Option ℤ
  | [] => some 0
  | c :: r =>
    if c = 'e' ∨ c = 'E' then
      let p := stripSign r
      let ds := p.2.takeWhile Char.isDigit
      if ds = [] ∨ p.2.dropWhile Char.isDigit ≠ [] then none
      else some (if p.1 then -(digitsVal ds : ℤ) else (digitsVal ds : ℤ))
    else none

/-- Python `float(s)` on decimal literals: surrounding whitespace, an
optional sign, a mantissa (`digits`, `digits.digits`, `digits.` or
`.digits`) and an optional exponent.  The value is produced exactly, as a
rational (the source's IEEE rounding is abstracted away by the real-number
model; `inf`/`nan` spellings and digit-group underscores do not occur in the
dump format and are not modelled). -/
def pyFloatOfString (s : List Char) : Option ℚ :=
  let t := pyStrip s
  let p := stripSign t
  let intDs := p.2.takeWhile Char.isDigit
  let rest1 := p.2.dropWhile Char.isDigit
  let core : Option ℚ :=
    match rest1 with
    | '.' :: r2 =>
      let fracDs := r2.takeWhile Char.isDigit
      let rest2 := r2.dropWhile Char.isDigit
      if intDs = [] ∧ fracDs = [] then none
      else
        (expPart rest2).map (fun e =>
          ((digitsVal intDs : ℚ) + (digitsVal fracDs : ℚ) / 10 ^ fracDs.length) * 10 ^ e)
    | _ =>
      if intDs = [] then none
      else (expPart rest1).map (fun e => (digitsVal intDs : ℚ) * 10 ^ e)
  core.map (fun q => if p.1 then -q else q)

/-! ### Errors and the dump parser -/

/-- The error class of the source: a single `ParseError(RuntimeError)`
carrying a human-readable message.  (No other error class is defined in the
source.) -/
inductive DumpError where
  | parseError (msg : List Char) : DumpError
deriving DecidableEq

/-- The message of the `ParseError` raised by `_parse_polyline_header`. -/
def headerErrMsg (line : List Char) : List Char :=
  "Unable to parse polyline header: '".toList ++ line ++ "'".toList

/-- The message of the `ParseError` raised by `_parse_triangle_line`. -/
def triErrMsg (line : List Char) : List Char :=
  "Unable to parse triangle line: '".toList ++ line ++ "'".toList

/-- Source constant `POLYLINE_PREFIX = "Polyline:"`. -/
def polylineMarker : List Char := "Polyline:".toList

/-- Source constant `TRIANGLE_PREFIX = "Triangle"`. -/
def triangleMarker : List Char := "Triangle".toList

/-- Mirrors `_parse_polyline_header(line, index)`: drop the marker, strip,
split on commas into exactly three stripped fields, read the leading integer
token of the first, the float after the colon of the second, and the trimmed
text after the first colon of the third; any failure (wrong field count,
missing token or colon, non-numeric count/width) raises `ParseError` with
the offending line text. -/
def _parse_polyline_header (line : List Char) (index : ℤ) : Except DumpError PolylineDump :=
  match (splitChar ',' (pyStrip (line.drop polylineMarker.length))).map pyStrip with
  | [point_part, width_part, layer_part] =>
    match splitWsHead point_part with
    | none => .error (.parseError (headerErrMsg line))
    | some w0 =>
      match pyIntOfString w0 with
      | none => .error (.parseError (headerErrMsg line))
      | some point_count =>
        match splitOnceChar ':' width_part with
        | none => .error (.parseError (headerErrMsg line))
        | some wsplit =>
          match pyFloatOfString wsplit.2 with
          | none => .error (.parseError (headerErrMsg line))
          | some width =>
            match splitOnceChar ':' layer_part with
            | none => .error (.parseError (headerErrMsg line))
            | some lsplit =>
              .ok { index := index
                    point_count := point_count
                    width := (width : ℝ)
                    layer := pyStrip lsplit.2
                    triangles := [] }
  | _ => .error (.parseError (headerErrMsg line))

/-- Python `payload.strip().split('],')` specialised to the two-character
separator the source uses: split on each non-overlapping, leftmost-first
occurrence of `"],"`. -/
def splitBrackComma : List Char → List (List Char)
  | ']' :: ',' :: rest => [] :: splitBrackComma rest
  | c :: rest =>
    match splitBrackComma rest with
    | t :: ts => (c :: t) :: ts
    | [] => [[c]]
  | [] => [[]]

/-- The per-chunk body of the `_parse_triangle_line` loop: strip the chunk,
drop a trailing `]` and a leading `[` when present, split at the first comma
(no comma raises, caught as a parse failure), strip both halves and parse
each as a float. -/
def parseVertexChunk (chunk : List Char) : Option Point :=
  let c1 := pyStrip chunk
  let c2 := if c1.getLast? = some ']' then c1.dropLast else c1
  let c3 :=
    match c2 with
    | '[' :: r => r
    | _ => c2
  match splitOnceChar ',' c3 with
  | none => none
  | some xy =>
    match pyFloatOfString (pyStrip xy.1), pyFloatOfString (pyStrip xy.2) with
    | some qx, some qy => some ((qx : ℝ), (qy : ℝ))
    | _, _ => none

/-- The `for chunk in triples` loop of `_parse_triangle_line`: parse each
chunk in order, aborting at the first failure. -/
def parseVertices : List (List Char) → Option (List Point)
  | [] => some []
  | ch :: rest =>
    match parseVertexChunk ch with
    | none => none
    | some v => (parseVertices rest).map (fun vs => v :: vs)

/-- Mirrors `_parse_triangle_line(line)`: split at the first colon (none
raises), split the stripped payload on `"],"`, parse every chunk as a
vertex, and require exactly three vertices; any failure raises `ParseError`
with the offending line text. -/
def _parse_triangle_line (line : List Char) : Except DumpError Triangle :=
  match splitOnceChar ':' line with
  | none => .error (.parseError (triErrMsg line))
  | some split1 =>
    match parseVertices (splitBrackComma (pyStrip split1.2)) with
    | none => .error (.parseError (triErrMsg line))
    | some vs =>
      match vs with
      | [v0, v1, v2] => .ok (v0, v1, v2)
      | _ => .error (.parseError (triErrMsg line))

/-- The message of the `ParseError` raised for a triangle line with no open
polyline. -/
def beforeHeaderMsg (path : List Char) : List Char :=
  "Triangle line encountered before polyline header in ".toList ++ path

/-- The line loop of `parse_log`, with the output list and the
`current` polyline as explicit state: blank lines are skipped, a header
line first closes any open polyline (`finish_current`) and opens a fresh
record indexed by the output length, a triangle line is appended to the open
record (none open raises `ParseError`), any other line is ignored, and the
end of input closes any open polyline (the trailing `finish_current()`). -/
def parseGo (path : List Char) :
    List (List Char) → List PolylineDump → Option PolylineDump →
    Except DumpError (List PolylineDump)
  | [], acc, cur => .ok (acc ++ cur.toList)
  | raw :: rest, acc, cur =>
    let line := pyStrip raw
    if line = [] then parseGo path rest acc cur
    else if polylineMarker.isPrefixOf line then
      let acc' := acc ++ cur.toList
      match _parse_polyline_header line (acc'.length : ℤ) with
      | .error e => .error e
      | .ok r => parseGo path rest acc' (some r)
    else if triangleMarker.isPrefixOf line then
      match cur with
      | none => .error (.parseError (beforeHeaderMsg path))
      | some c =>
        match _parse_triangle_line line with
        | .error e => .error e
        | .ok tri => parseGo path rest acc (some { c with triangles := c.triangles ++ [tri] })
    else parseGo path rest acc cur

/-- Mirrors `parse_log` after decoding: run the line loop from the empty
output and no open polyline. -/
def parse_lines (path : List Char) (lines : List (List Char)) :
    Except DumpError (List PolylineDump) :=
  parseGo path lines [] none

/-! ### The decoder

`_iter_lines` reads the file's bytes and tries `utf-8`, `utf-8-sig`,
`utf-16` and `utf-16-le` in that order, accepting the first codec that
decodes the whole buffer.  The codecs themselves are CPython's strict
standard codecs; they are modelled here from their specification (RFC 3629
UTF-8 with overlong/surrogate/out-of-range rejection; UTF-16 with strict
surrogate pairing; the BOM-sniffing `utf-16` codec falls back to the
platform's native byte order, little-endian on the machines this tool
targets).  A byte buffer is a `List ℕ` of values below 256, and decoded
text is the `List ℕ` of its Unicode code points. -/

/-- CPython's strict `utf-8` decoder as a byte-wise automaton.  The state
`none` expects a lead byte; `some (remaining, acc, lo, hi)` expects
`remaining` more continuation bytes, with the accumulated code-point bits
`acc` and the admissible range `lo..hi` for the *next* byte (the narrowed
first-continuation ranges for lead bytes `E0`, `ED`, `F0` and `F4` reject
overlong forms, UTF-16 surrogates and code points above `U+10FFFF`; all
later continuation bytes must lie in `80..BF`).  A lead byte in
`80..C1` or `F5..FF`, a continuation byte outside its range, and a
truncated sequence at end of input are decode errors. -/
def utf8Aux : Option (ℕ × ℕ × ℕ × ℕ) → List ℕ → Option (List ℕ)
  | none, [] => some []
  | some _, [] => none
  | none, b :: rest =>
    if b ≤ 0x7F then (utf8Aux none rest).map (fun t => b :: t)
    else if 0xC2 ≤ b ∧ b ≤ 0xDF then utf8Aux (some (1, b - 0xC0, 0x80, 0xBF)) rest
    else if b = 0xE0 then utf8Aux (some (2, 0, 0xA0, 0xBF)) rest
    else if 0xE1 ≤ b ∧ b ≤ 0xEC then utf8Aux (some (2, b - 0xE0, 0x80, 0xBF)) rest
    else if b = 0xED then utf8Aux (some (2, 0xD, 0x80, 0x9F)) rest
    else if 0xEE ≤ b ∧ b ≤ 0xEF then utf8Aux (some (2, b - 0xE0, 0x80, 0xBF)) rest
    else if b = 0xF0 then utf8Aux (some (3, 0, 0x90, 0xBF)) rest
    else if 0xF1 ≤ b ∧ b ≤ 0xF3 then utf8Aux (some (3, b - 0xF0, 0x80, 0xBF)) rest
    else if b = 0xF4 then utf8Aux (some (3, 4, 0x80, 0x8F)) rest
    else none
  | some st, b :: rest =>
    if st.2.2.1 ≤ b ∧ b ≤ st.2.2.2 then
      if st.1 = 1 then (utf8Aux none rest).map (fun t => (st.2.1 * 0x40 + (b - 0x80)) :: t)
      else utf8Aux (some (st.1 - 1, st.2.1 * 0x40 + (b - 0x80), 0x80, 0xBF)) rest
    else none

/-- CPython's strict `utf-8` decoder: run the automaton from the lead-byte
state on the whole buffer. -/
def utf8Decode (raw : List ℕ) : Option (List ℕ) := utf8Aux none raw

/-- CPython's `utf-8-sig` decoder: strip one leading UTF-8 byte-order mark
`EF BB BF` when present, then decode as strict UTF-8. -/
def utf8SigDecode (raw : List ℕ) : Option (List ℕ) :=
  match raw with
  | 0xEF :: 0xBB :: 0xBF :: rest => utf8Decode rest
  | _ => utf8Decode raw

/-- Bytes to 16-bit code units, little-endian; an odd trailing byte is a
decode error. -/
def utf16leUnits : List ℕ → Option (List ℕ)
  | [] => some []
  | [_] => none
  | lo :: hi :: rest => (utf16leUnits rest).map (fun t => (lo + 0x100 * hi) :: t)

/-- Bytes to 16-bit code units, big-endian; an odd trailing byte is a decode
error. -/
def utf16beUnits : List ℕ → Option (List ℕ)
  | [] => some []
  | [_] => none
  | hi :: lo :: rest => (utf16beUnits rest).map (fun t => (0x100 * hi + lo) :: t)

/-- 16-bit code units to code points: BMP units pass through, a high
surrogate must be followed by a low surrogate (combined into a supplementary
code point), and a lone surrogate is a decode error. -/
def utf16Combine : List ℕ → Option (List ℕ)
  | [] => some []
  | u :: rest =>
    if u < 0xD800 ∨ 0xE000 ≤ u then (utf16Combine rest).map (fun t => u :: t)
    else if u ≤ 0xDBFF then
      match rest with
      | u2 :: rest2 =>
        if 0xDC00 ≤ u2 ∧ u2 ≤ 0xDFFF then
          (utf16Combine rest2).map
            (fun t => (0x10000 + (u - 0xD800) * 0x400 + (u2 - 0xDC00)) :: t)
        else none
      | [] => none
    else none

/-- CPython's `utf-16-le` decoder (a BOM, if present, is decoded as an
ordinary `U+FEFF` character). -/
def utf16leDecode (raw : List ℕ) : Option (List ℕ) :=
  (utf16leUnits raw).bind utf16Combine

/-- CPython's `utf-16-be` decoder. -/
def utf16beDecode (raw : List ℕ) : Option (List ℕ) :=
  (utf16beUnits raw).bind utf16Combine

/-- CPython's `utf-16` decoder: sniff and consume a byte-order mark, falling
back to the native byte order (little-endian here) when none is present. -/
def utf16Decode (raw : List ℕ) : Option (List ℕ) :=
  match raw with
  | 0xFF :: 0xFE :: rest => utf16leDecode rest
  | 0xFE :: 0xFF :: rest => utf16beDecode rest
  | _ => utf16leDecode raw

/-- The message of the `ParseError` raised when no codec accepts the buffer. -/
def decodeMsg (path : List Char) : List Char :=
  "Unable to decode ".toList ++ path ++ " as UTF-8/UTF-16".toList

/-- The decoding stage of `_iter_lines`: try the four codecs in the source's
fixed order and return the first successful decode; when every codec fails,
raise `ParseError` naming the path (the `for ... else` clause). -/
def iterLinesDecode (raw : List ℕ) (path : List Char) : Except DumpError (List ℕ) :=
  match utf8Decode raw with
  | some text => .ok text
  | none =>
    match utf8SigDecode raw with
    | some text => .ok text
    | none =>
      match utf16Decode raw with
      | some text => .ok text
      | none =>
        match utf16leDecode raw with
        | some text => .ok text
        | none => .error (.parseError (decodeMsg path))

/-! ### Helper lemmas -/

/-- The byte `0xFF` can never start a UTF-8 buffer. -/
lemma utf8Decode_ff (l : List ℕ) : utf8Decode (0xFF :: l) = none := rfl

/-- The byte `0xFE` can never start a UTF-8 buffer. -/
lemma utf8Decode_fe (l : List ℕ) : utf8Decode (0xFE :: l) = none := rfl

/-- A buffer starting with `0xFF` is not reshaped by the `utf-8-sig` BOM
strip. -/
lemma utf8SigDecode_ff (l : List ℕ) : utf8SigDecode (0xFF :: l) = utf8Decode (0xFF :: l) := rfl

/-- A buffer starting with `0xFE` is not reshaped by the `utf-8-sig` BOM
strip. -/
lemma utf8SigDecode_fe (l : List ℕ) : utf8SigDecode (0xFE :: l) = utf8Decode (0xFE :: l) := rfl

/-- Every diff produced by the loop body carries the loop index it was
produced at. -/
lemma compareAt_eq_some_index {r c : PolylineDump} {tol : ℝ} {j : ℕ} {d : TriangleDiff}
    (h : compareAt r c tol j = some d) : d.triangle_index = j := by
  unfold compareAt at h
  rcases ha : r.triangles[j]? with _ | ta <;> rw [ha] at h
  · cases h
  · rcases hb : c.triangles[j]? with _ | tb <;> rw [hb] at h
    · cases h
    · dsimp only at h
      split at h
      · cases h
      · cases h
        rfl

/-- The folded `max_vertex_delta` accumulator equals the maximum of the
three per-vertex Euclidean distances. -/
lemma triangle_delta_fst_eq (ta tb : Triangle) :
    (_triangle_delta ta tb).1 =
      max (_distance ta.1 tb.1) (max (_distance ta.2.1 tb.2.1) (_distance ta.2.2 tb.2.2)) := by
  unfold _triangle_delta _distance
  dsimp only
  simp only [sq_abs]
  rw [max_eq_right (Real.sqrt_nonneg _), max_assoc]

/-! ### Sample data for witnesses -/

/-- A concrete right isoceles triangle. -/
noncomputable def sampleTri0 : Triangle := ((0, 0), (1, 0), (0, 1))

/-- A concrete triangle differing from `sampleTri0` in its third vertex. -/
noncomputable def sampleTri1 : Triangle := ((0, 0), (1, 0), (0, 2))

/-- A concrete one-triangle polyline record. -/
noncomputable def samplePolyA : PolylineDump :=
  { index := 0, point_count := 3, width := 1, layer := "L".toList, triangles := [sampleTri0] }

/-- A concrete two-triangle polyline record. -/
noncomputable def samplePolyB : PolylineDump :=
  { index := 0, point_count := 3, width := 1, layer := "L".toList,
    triangles := [sampleTri1, sampleTri0] }

/-! ### Claims C1 and C2: the comparator -/

/-- C1: for every pair of polyline records, every non-negative tolerance and
every aligned index in the comparison range, `compare_polylines` emits a
`TriangleDiff` at that index iff the maximal per-vertex Euclidean distance
(the folded `max_vertex_delta`, shown equal to the maximum of the three
`_distance` values) strictly exceeds the tolerance; in particular a pair
whose three per-vertex deltas are all zero is never reported. -/
theorem C1_diff_emitted_iff_delta_exceeds_tolerance
    (r c : PolylineDump) (tol : ℝ) (cap : Option ℤ) (idx : ℕ) (ta tb : Triangle)
    (htol : 0 ≤ tol) (hidx : idx < comparisonRange r c cap)
    (ha : r.triangles[idx]? = some ta) (hb : c.triangles[idx]? = some tb) :
    ((∃ d ∈ compare_polylines r c tol cap, d.triangle_index = idx) ↔
      tol < (_triangle_delta ta tb).1)
    ∧ (_triangle_delta ta tb).1 =
        max (_distance ta.1 tb.1) (max (_distance ta.2.1 tb.2.1) (_distance ta.2.2 tb.2.2))
    ∧ ((_distance ta.1 tb.1 = 0 ∧ _distance ta.2.1 tb.2.1 = 0 ∧ _distance ta.2.2 tb.2.2 = 0) →
        ¬ ∃ d ∈ compare_polylines r c tol cap, d.triangle_index = idx) := by
  have hiff : (∃ d ∈ compare_polylines r c tol cap, d.triangle_index = idx) ↔
      tol < (_triangle_delta ta tb).1 := by
    constructor
    · rintro ⟨d, hd, hdi⟩
      obtain ⟨j, hj, hcomp⟩ := List.mem_filterMap.mp hd
      have hji : j = idx := by rw [← compareAt_eq_some_index hcomp, hdi]
      subst hji
      unfold compareAt at hcomp
      rw [ha, hb] at hcomp
      dsimp only at hcomp
      split at hcomp
      · cases hcomp
      · exact not_le.mp (by assumption)
    · intro hlt
      obtain ⟨d, hd⟩ : ∃ d, compareAt r c tol idx = some d := by
        unfold compareAt
        rw [ha, hb]
        dsimp only
        rw [if_neg (not_le.mpr hlt)]
        exact ⟨_, rfl⟩
      exact ⟨d, List.mem_filterMap.mpr ⟨idx, List.mem_range.mpr hidx, hd⟩,
        compareAt_eq_some_index hd⟩
  refine ⟨hiff, triangle_delta_fst_eq ta tb, ?_⟩
  intro hzero hex
  have hlt := hiff.mp hex
  rw [triangle_delta_fst_eq, hzero.1, hzero.2.1, hzero.2.2] at hlt
  simp only [max_self] at hlt
  exact absurd hlt (not_lt.mpr htol)

/-- C1 witness at concrete data: tolerance `0` and index `0` of the sample
polylines. -/
theorem C1_witness :
    (0 : ℝ) ≤ 0 ∧ 0 < comparisonRange samplePolyA samplePolyB none
    ∧ samplePolyA.triangles[0]? = some sampleTri0
    ∧ samplePolyB.triangles[0]? = some sampleTri1
    ∧ ((∃ d ∈ compare_polylines samplePolyA samplePolyB 0 none, d.triangle_index = 0) ↔
        0 < (_triangle_delta sampleTri0 sampleTri1).1) :=
  ⟨le_refl 0, by decide, rfl, rfl,
    (C1_diff_emitted_iff_delta_exceeds_tolerance samplePolyA samplePolyB 0 none 0
      sampleTri0 sampleTri1 (le_refl 0) (by decide) rfl rfl).1⟩

/-- C2: with no cap the comparison range is the minimum of the two
triangle-sequence lengths (extra triangles in the longer sequence are
ignored); every index in the range (for any cap) is a valid index into both
sequences; and every emitted diff's index lies in the range. -/
theorem C2_comparison_range_bounds
    (r c : PolylineDump) (cap : Option ℤ) (tol : ℝ) :
    comparisonRange r c none = min r.triangles.length c.triangles.length
    ∧ (∀ idx, idx < comparisonRange r c cap →
        (r.triangles[idx]?).isSome ∧ (c.triangles[idx]?).isSome)
    ∧ (∀ d ∈ compare_polylines r c tol cap, d.triangle_index < comparisonRange r c cap) := by
  refine ⟨?_, ?_, ?_⟩
  · unfold comparisonRange
    dsimp only
    omega
  · intro idx hidx
    have h1 : idx < r.triangles.length ∧ idx < c.triangles.length := by
      rcases cap with _ | m <;> unfold comparisonRange at hidx <;> dsimp only at hidx <;> omega
    exact ⟨by rw [List.getElem?_eq_getElem h1.1]; rfl,
           by rw [List.getElem?_eq_getElem h1.2]; rfl⟩
  · intro d hd
    obtain ⟨j, hj, hcomp⟩ := List.mem_filterMap.mp hd
    rw [compareAt_eq_some_index hcomp]
    exact List.mem_range.mp hj

/-- C2 witness at concrete data: the sample polylines with one and two
triangles. -/
theorem C2_witness :
    comparisonRange samplePolyA samplePolyB none
      = min samplePolyA.triangles.length samplePolyB.triangles.length
    ∧ ((samplePolyA.triangles[0]?).isSome ∧ (samplePolyB.triangles[0]?).isSome) :=
  ⟨(C2_comparison_range_bounds samplePolyA samplePolyB none 0).1,
   (C2_comparison_range_bounds samplePolyA samplePolyB none 0).2.1 0 (by decide)⟩

/-! ### Claims C5 and C6: the decoder -/

/-- C5 (amended): the decode stage returns the first codec, in the fixed
order utf-8, utf-8-sig, utf-16, utf-16-le, that decodes the whole buffer;
and a buffer bearing a UTF-16 byte-order mark (`FF FE` or `FE FF`) is never
decoded by either UTF-8 codec, since those lead bytes are invalid UTF-8.
(The original claim's stronger consequence — that *any* UTF-16 buffer is
never misdecoded as UTF-8 — is refuted by `C5_counterexample`.) -/
theorem C5_decoder_first_success_and_bom_safety (raw : List ℕ) (path : List Char) :
    (∀ t, iterLinesDecode raw path = .ok t ↔
      utf8Decode raw = some t
      ∨ (utf8Decode raw = none ∧ utf8SigDecode raw = some t)
      ∨ (utf8Decode raw = none ∧ utf8SigDecode raw = none ∧ utf16Decode raw = some t)
      ∨ (utf8Decode raw = none ∧ utf8SigDecode raw = none ∧ utf16Decode raw = none
          ∧ utf16leDecode raw = some t))
    ∧ (∀ rest, raw = 0xFF :: 0xFE :: rest ∨ raw = 0xFE :: 0xFF :: rest →
        utf8Decode raw = none ∧ utf8SigDecode raw = none) := by
  constructor
  · intro t
    unfold iterLinesDecode
    rcases h8 : utf8Decode raw with _ | t8
    · rcases hs : utf8SigDecode raw with _ | ts
      · rcases h16 : utf16Decode raw with _ | t16
        · rcases hle : utf16leDecode raw with _ | tle <;> simp
        · simp
      · simp
    · simp
  · rintro rest (rfl | rfl)
    · exact ⟨utf8Decode_ff _, (utf8SigDecode_ff _).trans (utf8Decode_ff _)⟩
    · exact ⟨utf8Decode_fe _, (utf8SigDecode_fe _).trans (utf8Decode_fe _)⟩

/-- C5 counterexample: the bytes `61 00 62 00` are the UTF-16-LE encoding of
"ab" (accepted by both UTF-16 codecs), yet the decode stage successfully
returns the UTF-8 reading "a\x00b\x00" — different, garbled text — so a
(BOM-less) UTF-16 buffer *can* be silently misdecoded as UTF-8. -/
theorem C5_counterexample :
    utf16leDecode [0x61, 0x00, 0x62, 0x00] = some [0x61, 0x62]
    ∧ utf16Decode [0x61, 0x00, 0x62, 0x00] = some [0x61, 0x62]
    ∧ iterLinesDecode [0x61, 0x00, 0x62, 0x00] "candidate.txt".toList
        = .ok [0x61, 0x00, 0x62, 0x00]
    ∧ ([0x61, 0x00, 0x62, 0x00] : List ℕ) ≠ [0x61, 0x62] :=
  ⟨by decide, by decide, rfl, by decide⟩

/-- C5 witness at concrete data: a BOM-bearing UTF-16-LE buffer is rejected
by both UTF-8 codecs and decoded by the utf-16 codec. -/
theorem C5_witness :
    (utf8Decode [0xFF, 0xFE, 0x61, 0x00] = none
      ∧ utf8SigDecode [0xFF, 0xFE, 0x61, 0x00] = none)
    ∧ iterLinesDecode [0xFF, 0xFE, 0x61, 0x00] "reference.txt".toList = .ok [0x61] := by
  have h := C5_decoder_first_success_and_bom_safety [0xFF, 0xFE, 0x61, 0x00]
    "reference.txt".toList
  exact ⟨h.2 [0x61, 0x00] (Or.inl rfl),
    (h.1 [0x61]).mpr (Or.inr (Or.inr (Or.inl ⟨by decide, by decide, by decide⟩)))⟩

/-- C6 (amended): when no candidate codec decodes the buffer, the decode
stage fails with the source's single `ParseError` class — not a distinct
`DecodeError` kind — and the message carries the source path. -/
theorem C6_decode_failure_is_parse_error (raw : List ℕ) (path : List Char)
    (h8 : utf8Decode raw = none) (hs : utf8SigDecode raw = none)
    (h16 : utf16Decode raw = none) (hle : utf16leDecode raw = none) :
    iterLinesDecode raw path = .error (DumpError.parseError (decodeMsg path))
    ∧ ∃ pre post, decodeMsg path = pre ++ path ++ post := by
  constructor
  · unfold iterLinesDecode
    rw [h8, hs, h16, hle]
  · exact ⟨_, _, rfl⟩

/-- C6 counterexample: on the undecodable buffer `FF` the decode stage
raises the `ParseError` class itself (the source defines no separate
`DecodeError`; `DumpError.parseError` is its only error kind). -/
theorem C6_counterexample :
    utf8Decode [0xFF] = none ∧ utf8SigDecode [0xFF] = none ∧ utf16Decode [0xFF] = none
    ∧ utf16leDecode [0xFF] = none
    ∧ iterLinesDecode [0xFF] "dump.txt".toList
        = .error (DumpError.parseError (decodeMsg "dump.txt".toList)) :=
  ⟨by decide, by decide, by decide, by decide, rfl⟩

/-- C6 witness at concrete data: a lone lead byte `DD` fails every codec and
produces the `ParseError` with the path in its message. -/
theorem C6_witness :
    (utf8Decode [0xDD] = none ∧ utf8SigDecode [0xDD] = none ∧ utf16Decode [0xDD] = none
      ∧ utf16leDecode [0xDD] = none)
    ∧ iterLinesDecode [0xDD] "ref.txt".toList
        = .error (DumpError.parseError (decodeMsg "ref.txt".toList))
    ∧ ∃ pre post, decodeMsg "ref.txt".toList = pre ++ "ref.txt".toList ++ post :=
  ⟨⟨by decide, by decide, by decide, by decide⟩,
    (C6_decode_failure_is_parse_error [0xDD] "ref.txt".toList
      (by decide) (by decide) (by decide) (by decide)).1,
    (C6_decode_failure_is_parse_error [0xDD] "ref.txt".toList
      (by decide) (by decide) (by decide) (by decide)).2⟩

/-! ### Parser helper lemmas -/

/-- The vertex loop succeeds on a chunk list iff every chunk parses. -/
lemma parseVertices_isSome_iff (chs : List (List Char)) :
    (parseVertices chs).isSome = true ↔ ∀ ch ∈ chs, (parseVertexChunk ch).isSome = true := by
  induction chs with
  | nil => simp [parseVertices]
  | cons ch rest ih =>
    rcases h : parseVertexChunk ch with _ | v
    · simp [parseVertices, h]
    · simp [parseVertices, h, ih]

/-- The vertex loop returns one parsed vertex per chunk. -/
lemma parseVertices_length (chs : List (List Char)) (vs : List Point)
    (h : parseVertices chs = some vs) : vs.length = chs.length := by
  induction chs generalizing vs with
  | nil => simp [parseVertices] at h; subst h; rfl
  | cons ch rest ih =>
    rw [parseVertices] at h
    rcases hch : parseVertexChunk ch with _ | v <;> rw [hch] at h
    · cases h
    · rcases hrest : parseVertices rest with _ | ws <;> rw [hrest] at h
      · cases h
      · cases h
        simp [ih ws hrest]

/-- A split never returns the empty list of chunks. -/
lemma splitChar_ne_nil (sep : Char) (s : List Char) : splitChar sep s ≠ [] := by
  induction s with
  | nil => simp [splitChar]
  | cons c rest ih =>
    rw [splitChar]
    by_cases hc : c = sep
    · simp [hc]
    · rw [if_neg hc]
      rcases h : splitChar sep rest with _ | ⟨t, ts⟩
      · exact absurd h ih
      · simp

/-- No chunk produced by a single-character split contains the separator. -/
lemma sep_not_mem_splitChar {sep : Char} {s part : List Char}
    (h : part ∈ splitChar sep s) : sep ∉ part := by
  induction s generalizing part with
  | nil =>
    simp [splitChar] at h
    subst h
    simp
  | cons c rest ih =>
    rw [splitChar] at h
    by_cases hc : c = sep
    · rw [if_pos hc] at h
      rcases List.mem_cons.mp h with h | h
      · subst h; simp
      · exact ih h
    · rw [if_neg hc] at h
      rcases hsp : splitChar sep rest with _ | ⟨t, ts⟩
      · exact absurd hsp (splitChar_ne_nil sep rest)
      · rw [hsp] at h
        rcases List.mem_cons.mp h with h | h
        · subst h
          intro hmem
          rcases List.mem_cons.mp hmem with h1 | h1
          · exact hc h1.symm
          · exact ih (hsp ▸ List.mem_cons_self t ts) h1
        · exact ih (hsp ▸ List.mem_cons_of_mem t h)

/-- Stripping only removes characters. -/
lemma pyStrip_sublist (s : List Char) : List.Sublist (pyStrip s) s := by
  unfold pyStrip
  have h1 : List.Sublist (((s.dropWhile isPySpace).reverse).dropWhile isPySpace)
      ((s.dropWhile isPySpace).reverse) := List.dropWhile_sublist isPySpace
  have h2 := h1.reverse
  rw [List.reverse_reverse] at h2
  exact h2.trans (List.dropWhile_sublist _)

/-- Members of a stripped string are members of the string. -/
lemma mem_pyStrip {x : Char} {s : List Char} (h : x ∈ pyStrip s) : x ∈ s :=
  (pyStrip_sublist s).subset h

/-- The remainder of a one-shot split is made of characters of the input. -/
lemma splitOnceChar_snd {sep : Char} {s a b : List Char}
    (h : splitOnceChar sep s = some (a, b)) : ∀ x ∈ b, x ∈ s := by
  induction s generalizing a b with
  | nil => simp [splitOnceChar] at h
  | cons c rest ih =>
    rw [splitOnceChar] at h
    by_cases hc : c = sep
    · rw [if_pos hc] at h
      cases h
      intro x hx
      exact List.mem_cons_of_mem _ hx
    · rw [if_neg hc] at h
      rcases ho : splitOnceChar sep rest with _ | ⟨p1, p2⟩ <;> rw [ho] at h
      · cases h
      · simp only [Option.map_some'] at h
        cases h
        intro x hx
        exact List.mem_cons_of_mem _ (ih ho x hx)

/-! ### Claim C7: triangle-line parsing -/

/-- C7: a triangle line parses successfully iff it has a colon and the
payload splits on `"],"` into exactly three chunks, each parsing as a
numeric vertex; every failure raises the `ParseError` whose message embeds
the offending line text. -/
theorem C7_triangle_line_three_numeric_vertices (line : List Char) :
    ((∃ t, _parse_triangle_line line = .ok t) ↔
      ∃ s, splitOnceChar ':' line = some s
        ∧ (splitBrackComma (pyStrip s.2)).length = 3
        ∧ ∀ ch ∈ splitBrackComma (pyStrip s.2), (parseVertexChunk ch).isSome = true)
    ∧ (∀ e, _parse_triangle_line line = .error e → e = .parseError (triErrMsg line))
    ∧ ∃ pre post, triErrMsg line = pre ++ line ++ post := by
  refine ⟨?_, ?_, ⟨_, _, rfl⟩⟩
  · unfold _parse_triangle_line
    rcases hsp : splitOnceChar ':' line with _ | s
    · simp
    · rcases hpv : parseVertices (splitBrackComma (pyStrip s.2)) with _ | vs
      · have hnall : ¬ ∀ ch ∈ splitBrackComma (pyStrip s.2),
            (parseVertexChunk ch).isSome = true := by
          intro hall
          have h1 := (parseVertices_isSome_iff _).mpr hall
          rw [hpv] at h1
          cases h1
        simp [hsp, hpv, hnall]
      · have hlen := parseVertices_length _ _ hpv
        have hall := (parseVertices_isSome_iff (splitBrackComma (pyStrip s.2))).mp
          (by rw [hpv]; rfl)
        rcases vs with _ | ⟨v0, _ | ⟨v1, _ | ⟨v2, _ | ⟨v3, vrest⟩⟩⟩⟩ <;>
          simp [hsp, hpv, hall, ← hlen]
        exact hall
  · intro e he
    unfold _parse_triangle_line at he
    split at he
    · cases he; rfl
    · split at he
      · cases he; rfl
      · split at he
        · cases he
        · cases he; rfl

/-- A concrete well-formed triangle line (the spec's own example). -/
def goodTriLine : List Char := "Triangle 0: [0.0, 0.0], [1.0, 0.0], [0.0, 1.0]".toList

/-- A concrete triangle line with only two vertex groups (the spec's own
failing example). -/
def badTriLine : List Char := "Triangle 4: [0.0, 0.0], [1.0, 0.0]".toList

/-- C7 witness at concrete data: the good line parses, and the error message
template embeds the offending line. -/
theorem C7_witness :
    (∃ t, _parse_triangle_line goodTriLine = .ok t)
    ∧ ∃ pre post, triErrMsg badTriLine = pre ++ badTriLine ++ post :=
  ⟨(C7_triangle_line_three_numeric_vertices goodTriLine).1.mpr
      ⟨("Triangle 0".toList, " [0.0, 0.0], [1.0, 0.0], [0.0, 1.0]".toList),
        by decide, by decide, by decide⟩,
    (C7_triangle_line_three_numeric_vertices badTriLine).2.2⟩

/-! ### Claim C10: commas in the layer field -/

/-- C10: a header whose comma-split does not yield exactly three fields
fails with the header `ParseError`, and consequently no successfully parsed
record ever carries a comma inside its `layer` string. -/
theorem C10_layer_never_contains_comma (line : List Char) (idx : ℤ) :
    (∀ r, _parse_polyline_header line idx = .ok r → ',' ∉ r.layer)
    ∧ (((splitChar ',' (pyStrip (line.drop polylineMarker.length))).map pyStrip).length ≠ 3 →
        _parse_polyline_header line idx = .error (.parseError (headerErrMsg line))) := by
  constructor
  · intro r hr
    unfold _parse_polyline_header at hr
    split at hr
    case _ point_part width_part layer_part heq =>
      split at hr
      · cases hr
      case _ w0 hw0 =>
        split at hr
        · cases hr
        case _ pc hpc =>
          split at hr
          · cases hr
          case _ wsplit hws =>
            split at hr
            · cases hr
            case _ width hwidth =>
              split at hr
              · cases hr
              case _ lsplit hls =>
                cases hr
                have hlp : layer_part ∈
                    (splitChar ',' (pyStrip (line.drop polylineMarker.length))).map pyStrip := by
                  rw [heq]
                  simp
                obtain ⟨rawp, hrawp, hlpe⟩ := List.mem_map.mp hlp
                have hcomma : ',' ∉ rawp := sep_not_mem_splitChar hrawp
                intro hmem
                have hmem' : ',' ∈ pyStrip lsplit.2 := hmem
                have h1 : ',' ∈ lsplit.2 := mem_pyStrip hmem'
                have h2 : ',' ∈ layer_part :=
                  splitOnceChar_snd (show splitOnceChar ':' layer_part
                    = some (lsplit.1, lsplit.2) from hls) ',' h1
                rw [← hlpe] at h2
                exact hcomma (mem_pyStrip h2)
    · cases hr
  · intro hlen
    unfold _parse_polyline_header
    rcases hparts : (splitChar ',' (pyStrip (line.drop polylineMarker.length))).map pyStrip with
      _ | ⟨a, _ | ⟨b, _ | ⟨c, _ | ⟨d, e⟩⟩⟩⟩
    · rfl
    · rfl
    · rfl
    · rw [hparts] at hlen
      simp at hlen
    · rfl

/-- A concrete header line whose layer text contains a comma. -/
def badHeaderLine : List Char := "Polyline: 3 points, width: 0.500, layer: A,B".toList

/-- A concrete well-formed header line (the spec's own example, with a colon
inside the layer text). -/
def goodHeaderLine : List Char :=
  "Polyline: 3 points, width: 0.500, layer: LAYER:Cut".toList

/-- C10 witness at concrete data: the comma-in-layer header has four fields
and fails; the good header parses to a record whose layer has no comma. -/
theorem C10_witness :
    (((splitChar ',' (pyStrip (badHeaderLine.drop polylineMarker.length))).map pyStrip).length ≠ 3
      ∧ _parse_polyline_header badHeaderLine 0
          = .error (.parseError (headerErrMsg badHeaderLine)))
    ∧ ∃ r, _parse_polyline_header goodHeaderLine 0 = .ok r ∧ ',' ∉ r.layer :=
  ⟨⟨by decide, (C10_layer_never_contains_comma badHeaderLine 0).2 (by decide)⟩,
    ⟨_, rfl, (C10_layer_never_contains_comma goodHeaderLine 0).1 _ rfl⟩⟩

/-! ### Claim C8: the trailing polyline is flushed at end of input -/

/-- C8: for any successful parse of a line suffix containing no header line,
starting with an open polyline `c`, the output is the accumulated records
followed by exactly `c` with the suffix's triangles appended — the final
record of a dump is closed and kept at end of input even with no trailing
header. -/
theorem C8_trailing_polyline_flushed (path : List Char) (lines : List (List Char))
    (acc : List PolylineDump) (c : PolylineDump) (out : List PolylineDump)
    (hnh : ∀ l ∈ lines, ¬ (polylineMarker.isPrefixOf (pyStrip l) = true))
    (hok : parseGo path lines acc (some c) = .ok out) :
    ∃ ts, out = acc ++ [{ c with triangles := c.triangles ++ ts }] := by
  induction lines generalizing acc c with
  | nil =>
    rw [parseGo] at hok
    cases hok
    refine ⟨[], ?_⟩
    rw [List.append_nil]
    rfl
  | cons raw rest ih =>
    rw [parseGo] at hok
    dsimp only at hok
    by_cases hbl : pyStrip raw = []
    · rw [if_pos hbl] at hok
      exact ih _ _ (fun l hl => hnh l (List.mem_cons_of_mem _ hl)) hok
    · rw [if_neg hbl] at hok
      have hnp : ¬ (polylineMarker.isPrefixOf (pyStrip raw) = true) :=
        hnh raw (List.mem_cons_self _ _)
      rw [if_neg hnp] at hok
      by_cases htri : triangleMarker.isPrefixOf (pyStrip raw) = true
      · rw [if_pos htri] at hok
        rcases htl : _parse_triangle_line (pyStrip raw) with e | tri <;> rw [htl] at hok
        · cases hok
        · obtain ⟨ts, hts⟩ := ih _ _ (fun l hl => hnh l (List.mem_cons_of_mem _ hl)) hok
          exact ⟨tri :: ts, by rw [hts]; simp⟩
      · rw [if_neg htri] at hok
        exact ih _ _ (fun l hl => hnh l (List.mem_cons_of_mem _ hl)) hok

/-- A concrete trailing line suffix: one triangle line and no header. -/
def sampleDumpLines : List (List Char) :=
  ["Triangle 0: [0.0, 0.0], [1.0, 0.0], [0.0, 1.0]".toList]

/-- A concrete open polyline record with no triangles yet. -/
noncomputable def samplePolyC : PolylineDump :=
  { index := 0, point_count := 3, width := 1, layer := "L".toList, triangles := [] }

/-- C8 witness at concrete data: the open record survives to the output with
the trailing triangle appended. -/
theorem C8_witness :
    (∀ l ∈ sampleDumpLines, ¬ (polylineMarker.isPrefixOf (pyStrip l) = true))
    ∧ ∃ ts out, parseGo "log.txt".toList sampleDumpLines [] (some samplePolyC) = .ok out
        ∧ out = [] ++ [{ samplePolyC with triangles := samplePolyC.triangles ++ ts }] := by
  refine ⟨by decide, ?_⟩
  obtain ⟨ts, hts⟩ := C8_trailing_polyline_flushed "log.txt".toList sampleDumpLines []
    samplePolyC _ (by decide) rfl
  exact ⟨ts, _, rfl, hts⟩

/-! ### Geometry helper lemmas

The numeric claims about `_min_internal_angle` are settled by relating the
source's clamped law-of-cosines formula to Mathlib's Euclidean angle at a
point of the plane `EuclideanSpace ℝ (Fin 2)`. -/

/-- A `Point` as a point of the Euclidean plane. -/
noncomputable def toE (p : Point) : EuclideanSpace ℝ (Fin 2) := ![p.1, p.2]

/-- The source's `_distance` is the Euclidean metric of the plane. -/
lemma dist_toE (p q : Point) : dist (toE p) (toE q) = _distance p q := by
  rw [EuclideanSpace.dist_eq]
  unfold _distance toE
  congr 1
  rw [Fin.sum_univ_two]
  simp [Real.dist_eq, sq_abs]

/-- The plane embedding is injective. -/
lemma toE_inj {p q : Point} (h : toE p = toE q) : p = q := by
  have h0 := congrFun h 0
  have h1 := congrFun h 1
  simp [toE] at h0 h1
  exact Prod.ext h0 h1

/-- `_distance` vanishes exactly on equal points. -/
lemma _distance_eq_zero_iff (p q : Point) : _distance p q = 0 ↔ p = q := by
  rw [← dist_toE, dist_eq_zero]
  exact ⟨toE_inj, fun h => h ▸ rfl⟩

/-- `_distance` is symmetric. -/
lemma _distance_comm (p q : Point) : _distance p q = _distance q p := by
  rw [← dist_toE, ← dist_toE, dist_comm]

/-- `_distance` is non-negative. -/
lemma _distance_nonneg (p q : Point) : 0 ≤ _distance p q := Real.sqrt_nonneg _

/-- The clamped cosine argument always lies in `[-1, 1]`. -/
lemma clampCos_mem (x : ℝ) : -1 ≤ clampCos x ∧ clampCos x ≤ 1 :=
  ⟨le_max_left _ _, max_le (by norm_num) (min_le_left _ _)⟩

/-- Each angle produced by the loop is non-negative. -/
lemma angleTerm_nonneg (a b c : ℝ) : 0 ≤ angleTerm a b c := by
  unfold angleTerm
  split
  · exact le_refl 0
  · exact Real.arccos_nonneg _

/-- The degenerate-triangle branch: a zero adjacent edge gives angle `0`. -/
lemma angleTerm_of_adjacent_zero {a b c : ℝ} (h : b = 0 ∨ c = 0) :
    angleTerm a b c = 0 := by
  unfold angleTerm
  exact if_pos h

/-- When the law-of-cosines numerator equals the denominator, the clamped
cosine is `1` and the angle is `0`. -/
lemma angleTerm_eq_zero_of_arg_one {a b c : ℝ} (hb : b ≠ 0) (hc : c ≠ 0)
    (h : b * b + c * c - a * a = 2 * (b * c)) : angleTerm a b c = 0 := by
  unfold angleTerm
  rw [if_neg (by push_neg; exact ⟨hb, hc⟩), h]
  have h2 : (2 : ℝ) * (b * c) / (2 * b * c) = 1 := by
    rw [show (2 : ℝ) * b * c = 2 * (b * c) by ring]
    exact div_self (mul_ne_zero two_ne_zero (mul_ne_zero hb hc))
  rw [h2]
  have h3 : clampCos 1 = 1 := by
    unfold clampCos
    rw [min_self, max_eq_right (by norm_num : (-1 : ℝ) ≤ 1)]
  rw [h3, Real.arccos_one]

/-- The minimum over the three converted angles is non-negative. -/
lemma _min_internal_angle_nonneg (ab bc ca : ℝ) : 0 ≤ _min_internal_angle ab bc ca := by
  unfold _min_internal_angle
  have h : ∀ a b c : ℝ, 0 ≤ angleTerm a b c * 180 / Real.pi := fun a b c =>
    div_nonneg (mul_nonneg (angleTerm_nonneg a b c) (by norm_num)) Real.pi_pos.le
  exact le_min (le_min (h _ _ _) (h _ _ _)) (h _ _ _)

/-- If one of the three loop angles is zero, the returned minimum is zero. -/
lemma _min_internal_angle_eq_zero_of_term {ab bc ca : ℝ}
    (h : angleTerm ab bc ca = 0 ∨ angleTerm bc ca ab = 0 ∨ angleTerm ca ab bc = 0) :
    _min_internal_angle ab bc ca = 0 := by
  refine le_antisymm ?_ (_min_internal_angle_nonneg ab bc ca)
  unfold _min_internal_angle
  rcases h with h | h | h
  · exact le_trans (min_le_left _ _) (le_trans (min_le_left _ _) (by rw [h]; simp))
  · exact le_trans (min_le_left _ _) (le_trans (min_le_right _ _) (by rw [h]; simp))
  · exact le_trans (min_le_right _ _) (by rw [h]; simp)

/-- A zero edge length forces the returned minimum angle to zero (two of the
three loop angles take the degenerate branch). -/
lemma _min_internal_angle_of_zero_side {ab bc ca : ℝ}
    (h : ab = 0 ∨ bc = 0 ∨ ca = 0) : _min_internal_angle ab bc ca = 0 := by
  rcases h with h | h | h
  · exact _min_internal_angle_eq_zero_of_term
      (Or.inr (Or.inl (angleTerm_of_adjacent_zero (Or.inr h))))
  · exact _min_internal_angle_eq_zero_of_term
      (Or.inl (angleTerm_of_adjacent_zero (Or.inl h)))
  · exact _min_internal_angle_eq_zero_of_term
      (Or.inl (angleTerm_of_adjacent_zero (Or.inr h)))

/-- The loop's clamped arccosine formula computes the Euclidean angle at the
shared vertex of the two adjacent edges, whenever neither adjacent edge is
degenerate.  For sides `(ab, bc, ca)` the shared vertex of `bc` and `ca`
is `C`. -/
lemma angleTerm_eq_angle (A B C : Point) (hBC : B ≠ C) (hCA : C ≠ A) :
    angleTerm (_distance A B) (_distance B C) (_distance C A)
      = EuclideanGeometry.angle (toE A) (toE C) (toE B) := by
  have hbc : _distance B C ≠ 0 := fun h => hBC ((_distance_eq_zero_iff _ _).mp h)
  have hca : _distance C A ≠ 0 := fun h => hCA ((_distance_eq_zero_iff _ _).mp h)
  have hlaw := EuclideanGeometry.law_cos (toE A) (toE C) (toE B)
  rw [dist_toE, dist_toE, dist_toE, _distance_comm A C] at hlaw
  have harg : (_distance B C * _distance B C + _distance C A * _distance C A
      - _distance A B * _distance A B) / (2 * _distance B C * _distance C A)
      = Real.cos (EuclideanGeometry.angle (toE A) (toE C) (toE B)) := by
    rw [div_eq_iff (mul_ne_zero (mul_ne_zero two_ne_zero hbc) hca)]
    linear_combination -hlaw
  unfold angleTerm
  rw [if_neg (by push_neg; exact ⟨hbc, hca⟩), harg]
  have hclamp : clampCos (Real.cos (EuclideanGeometry.angle (toE A) (toE C) (toE B)))
      = Real.cos (EuclideanGeometry.angle (toE A) (toE C) (toE B)) := by
    unfold clampCos
    rw [min_eq_right (Real.cos_le_one _), max_eq_right (Real.neg_one_le_cos _)]
  rw [hclamp]
  exact Real.arccos_cos (EuclideanGeometry.angle_nonneg _ _ _)
    (EuclideanGeometry.angle_le_pi _ _ _)

/-- For three pairwise distinct points, the three loop angles sum to `π`
(Mathlib's triangle angle-sum theorem, transported through
`angleTerm_eq_angle`). -/
lemma angleTerm_sum (A B C : Point) (hAB : A ≠ B) (hBC : B ≠ C) (hCA : C ≠ A) :
    angleTerm (_distance A B) (_distance B C) (_distance C A)
    + angleTerm (_distance B C) (_distance C A) (_distance A B)
    + angleTerm (_distance C A) (_distance A B) (_distance B C) = Real.pi := by
  rw [angleTerm_eq_angle A B C hBC hCA, angleTerm_eq_angle B C A hCA hAB,
    angleTerm_eq_angle C A B hAB hBC]
  have h2 : toE A ≠ toE B := fun h => hAB (toE_inj h)
  have h3 : toE C ≠ toE B := fun h => hBC (toE_inj h.symm)
  have hsum := EuclideanGeometry.angle_add_angle_add_angle_eq_pi h2 h3
  linarith [hsum]

/-- The 2-D cross product `(B - A) × (C - A)` whose half absolute value is
the source's triangle area. -/
noncomputable def cross (A B C : Point) : ℝ :=
  (B.1 - A.1) * (C.2 - A.2) - (C.1 - A.1) * (B.2 - A.2)

/-- The computed area is half the absolute cross product. -/
lemma area_eq (tri : Triangle) :
    (triangle_metrics tri).area = 0.5 * |cross tri.1 tri.2.1 tri.2.2| := rfl

/-- The computed minimum angle in terms of the three edge distances. -/
lemma metrics_min_eq (tri : Triangle) :
    (triangle_metrics tri).min_angle_deg
      = _min_internal_angle (_distance tri.1 tri.2.1) (_distance tri.2.1 tri.2.2)
          (_distance tri.2.2 tri.1) := rfl

/-- Positive area means non-vanishing cross product. -/
lemma area_pos_iff (tri : Triangle) :
    0 < (triangle_metrics tri).area ↔ cross tri.1 tri.2.1 tri.2.2 ≠ 0 := by
  rw [area_eq]
  constructor
  · intro h hc
    rw [hc] at h
    norm_num at h
  · intro h
    have := abs_pos.mpr h
    linarith

/-- A non-vanishing cross product forces the three vertices pairwise
distinct. -/
lemma distinct_of_cross_ne {A B C : Point} (h : cross A B C ≠ 0) :
    A ≠ B ∧ B ≠ C ∧ C ≠ A := by
  refine ⟨fun he => h ?_, fun he => h ?_, fun he => h ?_⟩ <;> unfold cross
  · rw [he]; ring
  · rw [he]; ring
  · rw [he]; ring

/-- Collinear points with `A ≠ B` admit a line parametrisation of `C`. -/
lemma exists_param {A B C : Point} (hAB : A ≠ B) (h : cross A B C = 0) :
    ∃ t : ℝ, C.1 - A.1 = t * (B.1 - A.1) ∧ C.2 - A.2 = t * (B.2 - A.2) := by
  have hD : (B.1 - A.1) ^ 2 + (B.2 - A.2) ^ 2 ≠ 0 := by
    intro hD0
    apply hAB
    have h1 : B.1 - A.1 = 0 := by nlinarith [sq_nonneg (B.1 - A.1), sq_nonneg (B.2 - A.2)]
    have h2 : B.2 - A.2 = 0 := by nlinarith [sq_nonneg (B.1 - A.1), sq_nonneg (B.2 - A.2)]
    exact Prod.ext (by linarith) (by linarith)
  unfold cross at h
  refine ⟨((C.1 - A.1) * (B.1 - A.1) + (C.2 - A.2) * (B.2 - A.2))
      / ((B.1 - A.1) ^ 2 + (B.2 - A.2) ^ 2), ?_, ?_⟩
  · rw [div_mul_eq_mul_div, eq_div_iff hD]
    linear_combination (-(B.2 - A.2)) * h
  · rw [div_mul_eq_mul_div, eq_div_iff hD]
    linear_combination (B.1 - A.1) * h

/-- Distances along the parametrised line scale with `|t|` and `|1 - t|`. -/
lemma dist_scale {A B C : Point} (t : ℝ)
    (h1 : C.1 - A.1 = t * (B.1 - A.1)) (h2 : C.2 - A.2 = t * (B.2 - A.2)) :
    _distance C A = |t| * _distance A B ∧ _distance B C = |1 - t| * _distance A B := by
  constructor
  · unfold _distance
    rw [h1, h2, show (t * (B.1 - A.1)) ^ 2 + (t * (B.2 - A.2)) ^ 2
        = t ^ 2 * ((B.1 - A.1) ^ 2 + (B.2 - A.2) ^ 2) by ring]
    rw [Real.sqrt_mul (sq_nonneg t), Real.sqrt_sq_eq_abs]
    congr 1
    congr 1
    ring
  · have hb1 : B.1 - C.1 = (1 - t) * (B.1 - A.1) := by linear_combination -h1
    have hb2 : B.2 - C.2 = (1 - t) * (B.2 - A.2) := by linear_combination -h2
    unfold _distance
    rw [hb1, hb2, show ((1 - t) * (B.1 - A.1)) ^ 2 + ((1 - t) * (B.2 - A.2)) ^ 2
        = (1 - t) ^ 2 * ((B.1 - A.1) ^ 2 + (B.2 - A.2) ^ 2) by ring]
    rw [Real.sqrt_mul (sq_nonneg _), Real.sqrt_sq_eq_abs]
    congr 1
    congr 1
    ring

/-- Degenerate (zero-cross) triangles have minimum angle exactly zero: a
zero side takes the degenerate branch, and for distinct collinear points
one side is the sum of the other two, making one clamped cosine exactly 1. -/
lemma _min_internal_angle_zero_of_cross_zero (A B C : Point) (h : cross A B C = 0) :
    _min_internal_angle (_distance A B) (_distance B C) (_distance C A) = 0 := by
  by_cases hz : _distance A B = 0 ∨ _distance B C = 0 ∨ _distance C A = 0
  · exact _min_internal_angle_of_zero_side hz
  · push_neg at hz
    obtain ⟨hab, hbc, hca⟩ := hz
    have hAB : A ≠ B := fun he => hab ((_distance_eq_zero_iff _ _).mpr he)
    obtain ⟨t, h1, h2⟩ := exists_param hAB h
    obtain ⟨hcadist, hbcdist⟩ := dist_scale t h1 h2
    rcases le_or_lt t 0 with ht | ht
    · have key : _distance B C = _distance A B + _distance C A := by
        rw [hcadist, hbcdist, abs_of_nonpos ht,
          abs_of_nonneg (by linarith : (0 : ℝ) ≤ 1 - t)]
        ring
      exact _min_internal_angle_eq_zero_of_term (Or.inl
        (angleTerm_eq_zero_of_arg_one hbc hca (by rw [key]; ring)))
    · rcases le_or_lt t 1 with ht1 | ht1
      · have key : _distance A B = _distance C A + _distance B C := by
          rw [hcadist, hbcdist, abs_of_nonneg ht.le,
            abs_of_nonneg (by linarith : (0 : ℝ) ≤ 1 - t)]
          ring
        exact _min_internal_angle_eq_zero_of_term (Or.inr (Or.inl
          (angleTerm_eq_zero_of_arg_one hca hab (by rw [key]; ring))))
      · have key : _distance C A = _distance A B + _distance B C := by
          rw [hcadist, hbcdist, abs_of_nonneg (by linarith : (0 : ℝ) ≤ t),
            abs_of_nonpos (by linarith : 1 - t ≤ 0)]
          ring
        exact _min_internal_angle_eq_zero_of_term (Or.inr (Or.inl
          (angleTerm_eq_zero_of_arg_one hca hab (by rw [key]; ring))))

/-! ### Claims C3, C4 and C9: the angle metrics -/

/-- C3: a triangle with a zero-length edge (two coinciding vertices) gets
`min_angle_deg` exactly `0`, with no failure: zero-adjacent-edge angles are
defined as `0`, and the cosine argument is always clamped into `[-1, 1]`. -/
theorem C3_zero_edge_min_angle_zero (tri : Triangle)
    (h : _distance tri.1 tri.2.1 = 0 ∨ _distance tri.2.1 tri.2.2 = 0
      ∨ _distance tri.2.2 tri.1 = 0) :
    (triangle_metrics tri).min_angle_deg = 0
    ∧ ∀ x : ℝ, -1 ≤ clampCos x ∧ clampCos x ≤ 1 := by
  refine ⟨?_, clampCos_mem⟩
  rw [metrics_min_eq]
  exact _min_internal_angle_of_zero_side h

/-- A triangle with two coinciding vertices. -/
noncomputable def degTri : Triangle := ((0, 0), (0, 0), (1, 0))

/-- C3 witness at concrete data: the degenerate sample triangle. -/
theorem C3_witness :
    (_distance degTri.1 degTri.2.1 = 0 ∨ _distance degTri.2.1 degTri.2.2 = 0
      ∨ _distance degTri.2.2 degTri.1 = 0)
    ∧ (triangle_metrics degTri).min_angle_deg = 0 := by
  have h : _distance degTri.1 degTri.2.1 = 0 := by
    unfold _distance degTri
    norm_num
  exact ⟨Or.inl h, (C3_zero_edge_min_angle_zero degTri (Or.inl h)).1⟩

/-- C4: for a triangle of positive area the computed minimum angle lies in
`[0, 60]` degrees, and for a degenerate (zero-area) triangle it is `0`. -/
theorem C4_min_angle_range (tri : Triangle) :
    (0 < (triangle_metrics tri).area →
      0 ≤ (triangle_metrics tri).min_angle_deg
      ∧ (triangle_metrics tri).min_angle_deg ≤ 60)
    ∧ ((triangle_metrics tri).area = 0 → (triangle_metrics tri).min_angle_deg = 0) := by
  constructor
  · intro h
    obtain ⟨hAB, hBC, hCA⟩ := distinct_of_cross_ne ((area_pos_iff tri).mp h)
    have hsum := angleTerm_sum tri.1 tri.2.1 tri.2.2 hAB hBC hCA
    rw [metrics_min_eq]
    refine ⟨_min_internal_angle_nonneg _ _ _, ?_⟩
    unfold _min_internal_angle
    have hπ := Real.pi_pos
    have hsumdeg :
        angleTerm (_distance tri.1 tri.2.1) (_distance tri.2.1 tri.2.2)
            (_distance tri.2.2 tri.1) * 180 / Real.pi
        + angleTerm (_distance tri.2.1 tri.2.2) (_distance tri.2.2 tri.1)
            (_distance tri.1 tri.2.1) * 180 / Real.pi
        + angleTerm (_distance tri.2.2 tri.1) (_distance tri.1 tri.2.1)
            (_distance tri.2.1 tri.2.2) * 180 / Real.pi = 180 := by
      field_simp
      linear_combination 180 * hsum
    have m1 := min_le_left (min (angleTerm (_distance tri.1 tri.2.1)
        (_distance tri.2.1 tri.2.2) (_distance tri.2.2 tri.1) * 180 / Real.pi)
        (angleTerm (_distance tri.2.1 tri.2.2) (_distance tri.2.2 tri.1)
          (_distance tri.1 tri.2.1) * 180 / Real.pi))
        (angleTerm (_distance tri.2.2 tri.1) (_distance tri.1 tri.2.1)
          (_distance tri.2.1 tri.2.2) * 180 / Real.pi)
    have m2 := min_le_left (angleTerm (_distance tri.1 tri.2.1)
        (_distance tri.2.1 tri.2.2) (_distance tri.2.2 tri.1) * 180 / Real.pi)
        (angleTerm (_distance tri.2.1 tri.2.2) (_distance tri.2.2 tri.1)
          (_distance tri.1 tri.2.1) * 180 / Real.pi)
    have m3 := min_le_right (angleTerm (_distance tri.1 tri.2.1)
        (_distance tri.2.1 tri.2.2) (_distance tri.2.2 tri.1) * 180 / Real.pi)
        (angleTerm (_distance tri.2.1 tri.2.2) (_distance tri.2.2 tri.1)
          (_distance tri.1 tri.2.1) * 180 / Real.pi)
    have m4 := min_le_right (min (angleTerm (_distance tri.1 tri.2.1)
        (_distance tri.2.1 tri.2.2) (_distance tri.2.2 tri.1) * 180 / Real.pi)
        (angleTerm (_distance tri.2.1 tri.2.2) (_distance tri.2.2 tri.1)
          (_distance tri.1 tri.2.1) * 180 / Real.pi))
        (angleTerm (_distance tri.2.2 tri.1) (_distance tri.1 tri.2.1)
          (_distance tri.2.1 tri.2.2) * 180 / Real.pi)
    linarith
  · intro h
    rw [metrics_min_eq]
    apply _min_internal_angle_zero_of_cross_zero
    by_contra hc
    exact absurd h (ne_of_gt ((area_pos_iff tri).mpr hc))

/-- Collinear triangle with three distinct vertices. -/
noncomputable def colTri : Triangle := ((0, 0), (1, 0), (2, 0))

/-- C4 witness at concrete data: the right isoceles sample triangle has
positive area and minimum angle in `[0, 60]`; the collinear sample has zero
area and minimum angle `0`. -/
theorem C4_witness :
    (0 < (triangle_metrics sampleTri0).area
      ∧ 0 ≤ (triangle_metrics sampleTri0).min_angle_deg
      ∧ (triangle_metrics sampleTri0).min_angle_deg ≤ 60)
    ∧ ((triangle_metrics colTri).area = 0
      ∧ (triangle_metrics colTri).min_angle_deg = 0) := by
  have h0 : 0 < (triangle_metrics sampleTri0).area := by
    rw [area_eq]
    unfold cross sampleTri0
    norm_num
  have h1 : (triangle_metrics colTri).area = 0 := by
    rw [area_eq]
    unfold cross colTri
    norm_num
  exact ⟨⟨h0, ((C4_min_angle_range sampleTri0).1 h0).1, ((C4_min_angle_range sampleTri0).1 h0).2⟩,
    h1, (C4_min_angle_range colTri).2 h1⟩

/-- C9: for a triangle of positive computed area, the three internal angles
computed by the clamped law-of-cosines loop sum, in degrees, to 180 within
the claimed tolerance `1e-6` (the real-valued model gives the sum exactly). -/
theorem C9_angle_sum (tri : Triangle) (h : 0 < (triangle_metrics tri).area) :
    |angleTerm (_distance tri.1 tri.2.1) (_distance tri.2.1 tri.2.2)
        (_distance tri.2.2 tri.1) * 180 / Real.pi
      + angleTerm (_distance tri.2.1 tri.2.2) (_distance tri.2.2 tri.1)
          (_distance tri.1 tri.2.1) * 180 / Real.pi
      + angleTerm (_distance tri.2.2 tri.1) (_distance tri.1 tri.2.1)
          (_distance tri.2.1 tri.2.2) * 180 / Real.pi - 180| ≤ 1e-6 := by
  obtain ⟨hAB, hBC, hCA⟩ := distinct_of_cross_ne ((area_pos_iff tri).mp h)
  have hsum := angleTerm_sum tri.1 tri.2.1 tri.2.2 hAB hBC hCA
  have hπ := Real.pi_pos
  have hsumdeg :
      angleTerm (_distance tri.1 tri.2.1) (_distance tri.2.1 tri.2.2)
          (_distance tri.2.2 tri.1) * 180 / Real.pi
      + angleTerm (_distance tri.2.1 tri.2.2) (_distance tri.2.2 tri.1)
          (_distance tri.1 tri.2.1) * 180 / Real.pi
      + angleTerm (_distance tri.2.2 tri.1) (_distance tri.1 tri.2.1)
          (_distance tri.2.1 tri.2.2) * 180 / Real.pi = 180 := by
    field_simp
    linear_combination 180 * hsum
  rw [hsumdeg]
  norm_num

/-- C9 witness at concrete data: the right isoceles sample triangle. -/
theorem C9_witness :
    0 < (triangle_metrics sampleTri0).area
    ∧ |angleTerm (_distance sampleTri0.1 sampleTri0.2.1)
          (_distance sampleTri0.2.1 sampleTri0.2.2)
          (_distance sampleTri0.2.2 sampleTri0.1) * 180 / Real.pi
        + angleTerm (_distance sampleTri0.2.1 sampleTri0.2.2)
            (_distance sampleTri0.2.2 sampleTri0.1)
            (_distance sampleTri0.1 sampleTri0.2.1) * 180 / Real.pi
        + angleTerm (_distance sampleTri0.2.2 sampleTri0.1)
            (_distance sampleTri0.1 sampleTri0.2.1)
            (_distance sampleTri0.2.1 sampleTri0.2.2) * 180 / Real.pi - 180| ≤ 1e-6 := by
  have h0 : 0 < (triangle_metrics sampleTri0).area := by
    rw [area_eq]
    unfold cross sampleTri0
    norm_num
  exact ⟨h0, C9_angle_sum sampleTri0 h0⟩

end CompareTessellation
